import Mathlib

/-!
# Verification of the 2D physics engine (GJK / EPA / contact solver)

Shallow embedding of the collision-detection and contact-resolution core:
`src/collision.rs` (GJK, EPA, `get_collision`), `src/quad.rs` (oriented
rectangle support function), `src/sweeping_collider.rs` (swept collider),
and the fixed-step solver loop of `src/app.rs` (`fixed_update`).

Modelling conventions:

* The source computes with `f32`.  The embedding is parametric in a
  `LinearOrderedField K` together with an `Ops K` record providing the three
  transcendental operations the source uses (`sqrt` inside `normalize`,
  `cos`/`sin` inside the rectangle rotation).  General theorems quantify over
  `K` and the operations; executable instantiations use `K := ℚ` with
  `Rat.sqrt` (and rational stand-ins for `cos`/`sin` that agree with the real
  functions at every point the concrete runs evaluate them, namely `0`),
  and exact statements about unit normals use `K := ℝ` with `Real.sqrt`.

* `f32` has no exact rationals in general, but every concrete run evaluated
  below uses inputs chosen so that all square roots that decide control flow
  are exact, so the traces coincide with the exact-real runs.

* `normalize` of the zero vector yields NaN components in `f32`, and every
  NaN comparison is `false`, so a zero-length polytope edge can never update
  EPA's running minimum.  The embedding mirrors this by skipping zero edges
  in the minimum scan (`epaScanStep`); all other arithmetic is exact field
  arithmetic.

* The Rust `gjk` loop has no iteration bound (it relies on convex geometry
  for termination), so its embedding `gjkGo` takes an explicit fuel
  parameter and returns `none` on exhaustion; theorems quantify over fuel.

* The rayon-parallel passes in `fixed_update` are deterministic: each body
  writes only its own slot of the rebuilt array while reading the frozen
  previous array, and the `solved` flag only ever transitions to `false`
  within a pass.  The embedding is the equivalent sequential function.
-/

namespace Physics2

/-- 2D vector over the scalar field `K` (cgmath `Vector2<f32>`). -/
structure V2 (K : Type) where
  x : K
  y : K
deriving DecidableEq, Repr

/-- 3-component vector, used only for the `color` field of a `Quad`. -/
structure V3 (K : Type) where
  x : K
  y : K
  z : K
deriving DecidableEq, Repr

variable {K : Type} [LinearOrderedField K]

/-- Vector addition. -/
def vadd (a b : V2 K) : V2 K := ⟨a.x + b.x, a.y + b.y⟩

/-- Vector subtraction. -/
def vsub (a b : V2 K) : V2 K := ⟨a.x - b.x, a.y - b.y⟩

/-- Vector negation. -/
def vneg (a : V2 K) : V2 K := ⟨-a.x, -a.y⟩

/-- Scalar multiple of a vector. -/
def vsmul (c : K) (a : V2 K) : V2 K := ⟨c * a.x, c * a.y⟩

/-- Dot product. -/
def vdot (a b : V2 K) : K := a.x * b.x + a.y * b.y

/-- The zero vector. -/
def vzero : V2 K := ⟨0, 0⟩

/-- z-component of the 3D cross product of two vectors lifted to the z = 0
plane (`vec3(a.x,a.y,0).cross(vec3(b.x,b.y,0))` has only a z-component). -/
def cross3 (a b : V2 K) : K := a.x * b.y - a.y * b.x

/-- Cross product of the z-axis vector `(0,0,z)` with the lifted vector
`(v.x, v.y, 0)`, projected back to 2D (`.xy()`). -/
def crossWith (z : K) (v : V2 K) : V2 K := ⟨-z * v.y, z * v.x⟩

/-- The transcendental operations the source applies to `f32` scalars.
General theorems are parametric in these; concrete runs instantiate them. -/
structure Ops (K : Type) where
  sqrt : K → K
  cos : K → K
  sin : K → K

/-- cgmath `normalize`: `v * (1 / sqrt (v.dot v))`. -/
def normalizeV (ops : Ops K) (v : V2 K) : V2 K :=
  vsmul (1 / ops.sqrt (vdot v v)) v

/-- `collision.rs`: the `Collision` result. -/
structure Collision (K : Type) where
  normal : V2 K
  depth : K
deriving DecidableEq, Repr

/-- The `Collider` trait, as a record of its two methods. -/
structure Collider (K : Type) where
  center : V2 K
  furthest_point_in_direction : V2 K → V2 K

/-- `collision.rs` `support`: Minkowski-difference support point. -/
def support (s1 s2 : Collider K) (d : V2 K) : V2 K :=
  vsub (s1.furthest_point_in_direction d) (s2.furthest_point_in_direction (vneg d))

/-- `collision.rs` `handle_simplex` (with the nested `line_case` and
`triangle_case` inlined).  The simplex list is in push order, so the slice
patterns `[b, a]` and `[c, b, a]` of the source match the list literally;
`remove(0)` and `remove(1)` drop the corresponding list elements.  Lengths
other than 2 and 3 are `unreachable!()` in the source and never occur for
the call pattern of `gjkGo`; the embedding returns the state unchanged. -/
def handleSimplex (simplex : List (V2 K)) (d : V2 K) :
    List (V2 K) × V2 K × Bool :=
  match simplex with
  | [b, a] =>
    let ab := vsub b a
    let ao := vneg a
    let abPerp := crossWith (cross3 ab ao) ab
    ([b, a], abPerp, false)
  | [c, b, a] =>
    let ab := vsub b a
    let ac := vsub c a
    let ao := vneg a
    let abPerp := crossWith (cross3 ac ab) ab
    let acPerp := crossWith (cross3 ab ac) ac
    if 0 < vdot abPerp ao then ([b, a], abPerp, false)
    else if 0 < vdot acPerp ao then ([c, a], acPerp, false)
    else ([c, b, a], d, true)
  | s => (s, d, true)

/-- The `loop` inside `collision.rs` `gjk`.  The source loop has no
iteration cap; `fuel` bounds the recursion and exhaustion returns `none`
(treated as non-overlap, as the spec suggests for an implementation cap). -/
def gjkGo (s1 s2 : Collider K) :
    ℕ → List (V2 K) → V2 K → Option (List (V2 K))
  | 0, _, _ => none
  | fuel + 1, simplex, d =>
    let a := support s1 s2 d
    if vdot a d < 0 then none
    else
      let pushed := simplex ++ [a]
      let r := handleSimplex pushed d
      if r.2.2 then some r.1 else gjkGo s1 s2 fuel r.1 r.2.1

/-- The initial search direction of `gjk`
(line 83: `(s2.center() - s1.center()).normalize()`). -/
def gjkInitialDirection (ops : Ops K) (s1 s2 : Collider K) : V2 K :=
  normalizeV ops (vsub s2.center s1.center)

/-- The initial search direction as the spec describes it: "the normalized
vector from B's center to A's center", i.e. `normalize (A.center - B.center)`
for `gjk A B`.  Stated from the spec's words, for comparison with
`gjkInitialDirection`. -/
def gjkInitialDirectionClaimed (ops : Ops K) (s1 s2 : Collider K) : V2 K :=
  normalizeV ops (vsub s1.center s2.center)

/-- `collision.rs` `gjk`: seed the simplex with one support point along the
initial direction, set `d = -simplex[0]`, and iterate. -/
def gjk (ops : Ops K) (fuel : ℕ) (s1 s2 : Collider K) :
    Option (List (V2 K)) :=
  let d := gjkInitialDirection ops s1 s2
  let p := support s1 s2 d
  gjkGo s1 s2 fuel [p] (vneg p)

/-- `lib.rs`: `const MAX_PHYSICS_ITERATIONS: usize = 100`. -/
def MAX_PHYSICS_ITERATIONS : ℕ := 100

/-- Accumulator of EPA's per-pass minimum scan: the running minimum distance
(`none` models the `f32::INFINITY` the source resets it to), its normal and
the insertion index. -/
structure EpaMin (K : Type) where
  dist : Option K
  normal : V2 K
  index : ℕ
deriving DecidableEq, Repr

/-- One step of EPA's edge scan (the `for` loop body in `collision.rs`
lines 115–134).  The entry carries `(vertex_i, vertex_j, j)` with
`j = (i+1) % polytype.len()`.  A zero edge is skipped: in `f32`,
`normalize` of the zero vector is NaN, NaN comparisons are `false`, and so
such an edge can never pass `distance < min_distance`. -/
def epaScanStep (ops : Ops K) (acc : EpaMin K) (e : V2 K × V2 K × ℕ) :
    EpaMin K :=
  let ij := vsub e.2.1 e.1
  if ij = vzero then acc
  else
    let normal0 := normalizeV ops ⟨ij.y, -ij.x⟩
    let distance0 := vdot normal0 e.1
    let normal := if distance0 < 0 then vsmul (-1) normal0 else normal0
    let distance := if distance0 < 0 then distance0 * (-1) else distance0
    match acc.dist with
    | none => ⟨some distance, normal, e.2.2⟩
    | some md =>
      if distance < md then ⟨some distance, normal, e.2.2⟩ else acc

/-- The enumerated edge list `(vertex_i, vertex_j, j)` of the polytope, with
`j = (i + 1) % polytype.len()`.  The source reads `polytype[i]` and
`polytype[j]` by index; zipping the enumerated list with its one-step
rotation produces exactly the same pairs, in the same order, in linear
time. -/
def polyEdges (P : List (V2 K)) : List (V2 K × V2 K × ℕ) :=
  let len := P.length
  (P.enum.zip (P.drop 1 ++ P.take 1)).map fun e =>
    (e.1.2, e.2, (e.1.1 + 1) % len)

/-- EPA's minimum scan over all edges, starting from distance `∞` and the
`min_normal` / `min_index` values carried over from the previous pass. -/
def epaScan (ops : Ops K) (P : List (V2 K)) (minN : V2 K) (minI : ℕ) :
    EpaMin K :=
  (polyEdges P).foldl (epaScanStep ops) ⟨none, minN, minI⟩

/-- The `while min_distance == f32::INFINITY` loop of `collision.rs` `epa`.
Each pass: bail out with `none` once `iterations > MAX_PHYSICS_ITERATIONS`;
scan all edges for the minimum; compute the support along the winning
normal; if its distance differs from the minimum by more than `0.001`
(always the case while the minimum is still `∞`), insert the support point
at the winning index and repeat, else return the collision.

The loop's own guard bounds the recursion depth by
`MAX_PHYSICS_ITERATIONS + 2 - iterations`; the structural `fuel` parameter
makes that bound explicit so the function computes by structural recursion.
Every caller passes `fuel = MAX_PHYSICS_ITERATIONS + 2`, which strictly
dominates the guard, so the fuel-exhaustion case is unreachable. -/
def epaGo (ops : Ops K) (s1 s2 : Collider K) :
    ℕ → List (V2 K) → V2 K → ℕ → ℕ → Option (Collision K)
  | 0, _, _, _, _ => none
  | fuel + 1, P, minN, minI, iterations =>
    if MAX_PHYSICS_ITERATIONS < iterations then none
    else
      let m := epaScan ops P minN minI
      let sup := support s1 s2 m.normal
      let sDist := vdot m.normal sup
      match m.dist with
      | none =>
        epaGo ops s1 s2 fuel (P.insertIdx m.index sup) m.normal m.index
          (iterations + 1)
      | some md =>
        if 1 / 1000 < |sDist - md| then
          epaGo ops s1 s2 fuel (P.insertIdx m.index sup) m.normal m.index
            (iterations + 1)
        else some ⟨m.normal, md + 1 / 1000⟩

/-- The number of expansion iterations (polytope insertions) the `epa` loop
performs from a given state: the same recursion as `epaGo`, counting the
`polytype.insert` executions. -/
def epaInserts (ops : Ops K) (s1 s2 : Collider K) :
    ℕ → List (V2 K) → V2 K → ℕ → ℕ → ℕ
  | 0, _, _, _, _ => 0
  | fuel + 1, P, minN, minI, iterations =>
    if MAX_PHYSICS_ITERATIONS < iterations then 0
    else
      let m := epaScan ops P minN minI
      let sup := support s1 s2 m.normal
      let sDist := vdot m.normal sup
      match m.dist with
      | none =>
        epaInserts ops s1 s2 fuel (P.insertIdx m.index sup) m.normal m.index
          (iterations + 1) + 1
      | some md =>
        if 1 / 1000 < |sDist - md| then
          epaInserts ops s1 s2 fuel (P.insertIdx m.index sup) m.normal
            m.index (iterations + 1) + 1
        else 0

/-- `collision.rs` `epa` entry: `min_index = 0`, `min_normal = vec2(0,0)`,
`iterations = 0` (and fuel dominating the iteration guard, see `epaGo`). -/
def epa (ops : Ops K) (s1 s2 : Collider K) (polytype : List (V2 K)) :
    Option (Collision K) :=
  epaGo ops s1 s2 (MAX_PHYSICS_ITERATIONS + 2) polytype vzero 0 0

/-- `collision.rs` `get_collision`: `gjk(s1, s2).and_then(|s| epa(s, s1, s2))`. -/
def getCollision (ops : Ops K) (fuel : ℕ) (s1 s2 : Collider K) :
    Option (Collision K) :=
  (gjk ops fuel s1 s2).bind fun simplex => epa ops s1 s2 simplex

/-- `quad.rs`: the `Quad` body. -/
structure Quad (K : Type) where
  position : V2 K
  velocity : V2 K
  rotation : K
  angular_velocity : K
  scale : V2 K
  color : V3 K
  dynamic : Bool
deriving DecidableEq, Repr

/-- The four corners of a quad: half-extents, rotated by the orientation,
translated by the position — in the source's enumeration order
bottom-left, top-left, bottom-right, top-right. -/
def quadCorners (ops : Ops K) (q : Quad K) : List (V2 K) :=
  ([⟨-q.scale.x * (1 / 2), -q.scale.y * (1 / 2)⟩,
    ⟨-q.scale.x * (1 / 2), q.scale.y * (1 / 2)⟩,
    ⟨q.scale.x * (1 / 2), -q.scale.y * (1 / 2)⟩,
    ⟨q.scale.x * (1 / 2), q.scale.y * (1 / 2)⟩] : List (V2 K)).map
    (fun point =>
      (⟨point.x * ops.cos (-q.rotation) - point.y * ops.sin (-q.rotation),
        point.y * ops.cos (-q.rotation) + point.x * ops.sin (-q.rotation)⟩ :
        V2 K)) |>.map
    (fun point => vadd point q.position)

/-- `quad.rs` `furthest_point_in_direction`: scan the corners keeping the
first-encountered maximum dot product (the comparison is strict, so ties
keep the earlier corner). -/
def quadFurthest (ops : Ops K) (q : Quad K) (direction : V2 K) : V2 K :=
  match quadCorners ops q with
  | [] => vzero
  | p0 :: rest =>
    (rest.foldl
      (fun cur p =>
        if cur.2 < vdot p direction then (p, vdot p direction) else cur)
      (p0, vdot p0 direction)).1

/-- The `Collider` impl of `Quad`: `center` is the position. -/
def quadCollider (ops : Ops K) (q : Quad K) : Collider K :=
  ⟨q.position, quadFurthest ops q⟩

/-- cgmath `lerp`: `a + (b - a) * t`. -/
def lerpV (a b : V2 K) (t : K) : V2 K := vadd a (vsmul t (vsub b a))

/-- `sweeping_collider.rs`: the swept collider wrapping a base collider and
the two endpoint positions, as a `Collider` value.  `center` is the `t = 0.5`
lerp of the positions; the support point is the base support offset from the
base center, placed at whichever position projects further (ties prefer
`position_b`, since the comparison is strict). -/
def mkSweeping (collider : Collider K) (position_a position_b : V2 K) :
    Collider K :=
  { center := lerpV position_a position_b (1 / 2)
    furthest_point_in_direction := fun direction =>
      let point_a :=
        vadd (vsub (collider.furthest_point_in_direction direction)
            collider.center) position_a
      let point_b :=
        vadd (vsub (collider.furthest_point_in_direction direction)
            collider.center) position_b
      if vdot point_b direction < vdot point_a direction then point_a
      else point_b }

/-- `app.rs` `fixed_update`, gravity pass: every dynamic body gets
`velocity += gravity * ts`. -/
def gravityPass (gravity : V2 K) (ts : K) (quads : List (Quad K)) :
    List (Quad K) :=
  quads.map fun q =>
    if q.dynamic then { q with velocity := vadd q.velocity (vsmul ts gravity) }
    else q

/-- Accumulator of one body's inner loop over all other bodies: the position
and velocity deltas, plus the list of fired contacts `(other_index, normal)`
(instrumenting the `solved.store(false)` of the source, which records only
that some contact fired). -/
structure StepAcc (K : Type) where
  posDelta : V2 K
  velDelta : V2 K
  fired : List (ℕ × V2 K)
deriving DecidableEq, Repr

/-- The collider pair a pairwise test queries (lines 137–157): the
sweeping wrappers — this body swept from its position to its tentative
end-of-step position including the deltas accumulated so far, the other
body swept by its own velocity — when continuous mode is on, the plain
quads otherwise. -/
def pairColliders (ops : Ops K) (ts : K) (sweeping : Bool) (quad : Quad K)
    (acc : StepAcc K) (other : Quad K) : Collider K × Collider K :=
  let sweepingCollider :=
    mkSweeping (quadCollider ops quad) quad.position
      (vadd (vadd quad.position acc.posDelta)
        (vsmul ts (vadd quad.velocity acc.velDelta)))
  let sweepingColliderOther :=
    mkSweeping (quadCollider ops other) other.position
      (vadd other.position (vsmul ts other.velocity))
  (if sweeping then sweepingCollider else quadCollider ops quad,
    if sweeping then sweepingColliderOther else quadCollider ops other)

/-- The body of the inner `for (other_index, other)` loop of `fixed_update`
(lines 135–187): build the collider pair for the mode, query the collision,
and if the relative velocity along the negated normal is non-negative fire
the contact: subtract `normal * depth / dynamic_count` of a second,
non-swept `get_collision` query from the position delta (if that query
finds a collision) and zero the relative normal velocity on the velocity
delta. -/
def collideStep (ops : Ops K) (fuel : ℕ) (ts : K) (sweeping : Bool)
    (index : ℕ) (quad : Quad K) (acc : StepAcc K) (entry : ℕ × Quad K) :
    StepAcc K :=
  if entry.1 = index then acc
  else
    let other := entry.2
    let colliders := pairColliders ops ts sweeping quad acc other
    match getCollision ops fuel colliders.1 colliders.2 with
    | none => acc
    | some collision =>
      let relative_velocity := vsub other.velocity quad.velocity
      let cnvl := vdot relative_velocity (vneg collision.normal)
      if 0 ≤ cnvl then
        let dynamic_count : ℕ :=
          (if quad.dynamic then 1 else 0) + (if other.dynamic then 1 else 0)
        let posDelta2 :=
          match getCollision ops fuel (quadCollider ops quad)
              (quadCollider ops other) with
          | some c2 =>
            vsub acc.posDelta
              (vsmul (c2.depth / (dynamic_count : K)) c2.normal)
          | none => acc.posDelta
        { posDelta := posDelta2
          velDelta :=
            vsub acc.velDelta
              (vsmul (vdot (vneg relative_velocity) collision.normal)
                collision.normal)
          fired := acc.fired ++ [(entry.1, collision.normal)] }
      else acc

/-- One body's step of a resolution pass (the closure of `par_extend`,
lines 129–192): a dynamic body folds `collideStep` over the frozen snapshot
and applies its accumulated deltas; a static body is returned unchanged. -/
def processBody (ops : Ops K) (fuel : ℕ) (ts : K) (sweeping : Bool)
    (old : List (Quad K)) (index : ℕ) (quad : Quad K) :
    Quad K × List (ℕ × V2 K) :=
  if quad.dynamic then
    let acc :=
      old.enum.foldl (collideStep ops fuel ts sweeping index quad)
        ⟨vzero, vzero, []⟩
    ({ quad with
        position := vadd quad.position acc.posDelta
        velocity := vadd quad.velocity acc.velDelta },
      acc.fired)
  else (quad, [])

/-- One full resolution pass, keeping each body's fired-contact list: every
body is rebuilt from the frozen snapshot by `processBody`. -/
def resolutionPassFull (ops : Ops K) (fuel : ℕ) (ts : K) (sweeping : Bool)
    (quads : List (Quad K)) : List (Quad K × List (ℕ × V2 K)) :=
  quads.enum.map fun e => processBody ops fuel ts sweeping quads e.1 e.2

/-- One full resolution pass: the rebuilt bodies, and whether any contact
fired anywhere (the source's `solved.store(false)` having been executed). -/
def resolutionPass (ops : Ops K) (fuel : ℕ) (ts : K) (sweeping : Bool)
    (quads : List (Quad K)) : List (Quad K) × Bool :=
  let results := resolutionPassFull ops fuel ts sweeping quads
  (results.map Prod.fst, results.any fun r => !r.2.isEmpty)

/-- The resolution loop of `fixed_update` (lines 116–197):
`while !solved && iterations < MAX_PHYSICS_ITERATIONS`, each pass assuming
solved (`solved.store(true)`) and re-entering whenever a contact fired.
As with `epaGo`, the loop condition bounds the recursion depth by
`MAX_PHYSICS_ITERATIONS - iterations`; the structural `loopFuel` makes the
bound explicit, and every caller passes
`loopFuel = MAX_PHYSICS_ITERATIONS + 1`, which strictly dominates the
condition, so the fuel-exhaustion case (which returns the same state as a
failed loop condition) is unreachable. -/
def solverLoopF (ops : Ops K) (fuel : ℕ) (ts : K) (sweeping : Bool) :
    ℕ → List (Quad K) → Bool → ℕ → List (Quad K)
  | 0, quads, _, _ => quads
  | loopFuel + 1, quads, solved, iterations =>
    if solved = false ∧ iterations < MAX_PHYSICS_ITERATIONS then
      let r := resolutionPass ops fuel ts sweeping quads
      solverLoopF ops fuel ts sweeping loopFuel r.1 (!r.2) (iterations + 1)
    else quads

/-- The resolution loop from a given flag/counter state, with the fuel
instantiated to its dominating value. -/
def solverLoop (ops : Ops K) (fuel : ℕ) (ts : K) (sweeping : Bool)
    (quads : List (Quad K)) (solved : Bool) (iterations : ℕ) :
    List (Quad K) :=
  solverLoopF ops fuel ts sweeping (MAX_PHYSICS_ITERATIONS + 1) quads solved
    iterations

/-- The final integration pass: every dynamic body gets
`position += velocity * ts` and `rotation += angular_velocity * ts`. -/
def integratePass (ts : K) (quads : List (Quad K)) : List (Quad K) :=
  quads.map fun q =>
    if q.dynamic then
      { q with
          position := vadd q.position (vsmul ts q.velocity)
          rotation := q.rotation + q.angular_velocity * ts }
    else q

/-- `app.rs` `fixed_update` on the body collection: gravity, the resolution
loop entered with `solved = false` and `iterations = 0`, then integration. -/
def fixedUpdateQuads (ops : Ops K) (fuel : ℕ) (gravity : V2 K)
    (sweeping : Bool) (ts : K) (quads : List (Quad K)) : List (Quad K) :=
  integratePass ts
    (solverLoop ops fuel ts sweeping (gravityPass gravity ts quads) false 0)

/-- Newton iteration for the integer square root, with an explicit fuel so
that it computes by structural recursion (the kernel cannot reduce the
well-founded recursion of `Nat.sqrt`); with fuel at least `n` it returns
the same value as `Nat.sqrt n` when started from `n / 2`. -/
def sqrtIter (n : ℕ) : ℕ → ℕ → ℕ
  | 0, guess => guess
  | fuel + 1, guess =>
    let next := (guess + n / guess) / 2
    if next < guess then sqrtIter n fuel next else guess

/-- Kernel-reducible integer square root (same recurrence as `Nat.sqrt`). -/
def natSqrt (n : ℕ) : ℕ := if n ≤ 1 then n else sqrtIter n n (n / 2)

/-- Kernel-reducible rational square root, the construction of `Rat.sqrt`:
integer square roots of numerator and denominator.  Exact on squares of
rationals — which covers every square root that decides control flow in the
concrete runs below — and some underestimate elsewhere, matching the role
of the inexact `f32` square root. -/
def ratSqrt (q : ℚ) : ℚ := mkRat (natSqrt q.num.toNat) (natSqrt q.den)

/-- Executable rational instantiation of the transcendental operations:
`ratSqrt` is exact on squares of rationals, and the `cos`/`sin` stand-ins
agree with the real functions at `0`, the only rotation appearing in the
concrete runs below. -/
def ratOps : Ops ℚ := ⟨ratSqrt, fun q => if q = 0 then 1 else 0, fun _ => 0⟩

/-- An axis-aligned rational quad: position, velocity, scale, dynamic flag,
with zero rotation and angular velocity and white color. -/
def mkQuad (px py vx vy sx sy : ℚ) (dyn : Bool) : Quad ℚ :=
  ⟨⟨px, py⟩, ⟨vx, vy⟩, 0, 0, ⟨sx, sy⟩, ⟨1, 1, 1⟩, dyn⟩

/-- Concrete scene: a 2×2 dynamic square at the origin. -/
def quadAtOrigin : Quad ℚ := mkQuad 0 0 0 0 2 2 true

/-- Concrete scene: a 2×2 static square centered at `(1, 0)`. -/
def quadAtOne : Quad ℚ := mkQuad 1 0 0 0 2 2 false

/-- A collider whose support function is constantly `(5,5)` — a legitimate
`Collider` implementation (the trait imposes no laws), used to drive EPA
through a run in which every pass inserts. -/
def constCollider : Collider ℚ := ⟨⟨0, 0⟩, fun _ => ⟨5, 5⟩⟩

/-- A collider sitting at `(1,0)` whose support function is constantly the
origin, so Minkowski supports against it reduce to the first collider's. -/
def zeroCollider : Collider ℚ := ⟨⟨1, 0⟩, fun _ => ⟨0, 0⟩⟩

/-- A degenerate three-point polytope with all vertices equal.  All edges
have zero length, so (mirroring the `f32` NaN behaviour) EPA's minimum
never updates and each pass inserts the support along the stale zero
normal — which is `(5,5)` again for `constCollider` — forever. -/
def degeneratePolytope : List (V2 ℚ) := [⟨5, 5⟩, ⟨5, 5⟩, ⟨5, 5⟩]

/-- Falling-stack scene: a 2×2 dynamic square at the origin moving down. -/
def stackTop : Quad ℚ := mkQuad 0 0 0 (-1) 2 2 true

/-- Falling-stack scene: a 2×2 static square centered at `(0, -3/2)`,
overlapping `stackTop` by a band of height `1/2`. -/
def stackGround : Quad ℚ := mkQuad 0 (-3/2) 0 0 2 2 false

/-- Row scene, left body: a 2×2 dynamic square at `(-7/5, 0)` moving right
into `rowMid`. -/
def rowLeft : Quad ℚ := mkQuad (-7/5) 0 2 0 2 2 true

/-- Row scene, middle body: a 2×2 dynamic square at the origin at rest,
overlapping both neighbours. -/
def rowMid : Quad ℚ := mkQuad 0 0 0 0 2 2 true

/-- Row scene, right body: a 2×2 dynamic square at `(7/5, 0)` at rest. -/
def rowRight : Quad ℚ := mkQuad (7/5) 0 0 0 2 2 true

/-- Tunnelling scene: a 1×1 dynamic square at the origin moving right at
speed 10, so that one `ts = 1` step carries it entirely through the wall. -/
def bulletQuad : Quad ℚ := mkQuad 0 0 10 0 1 1 true

/-- Tunnelling scene: a 1×1 static wall at `(11/2, 0)`, inside the swept
hull of `bulletQuad` but disjoint from it at its current position. -/
def wallQuad : Quad ℚ := mkQuad (11/2) 0 0 0 1 1 false

/-- A triangular collider given directly by its support function (vertices
`(-1,3)`, `(-1,-1)`, `(2,-1)` — a 3-4-5 right triangle strictly containing
the origin, so every edge has integer length — first-encountered maximum on
ties) with reported center `(0,-1)`.  It gives a short GJK+EPA run in which
every square root is taken of a perfect square, so the run evaluates
exactly over any ordered field. -/
def triCollider (K : Type) [LinearOrderedField K] : Collider K :=
  { center := ⟨0, -1⟩
    furthest_point_in_direction := fun d =>
      let p1 : V2 K := ⟨-1, 3⟩
      let p2 : V2 K := ⟨-1, -1⟩
      let p3 : V2 K := ⟨2, -1⟩
      if vdot p1 d < vdot p2 d then
        if vdot p2 d < vdot p3 d then p3 else p2
      else if vdot p1 d < vdot p3 d then p3 else p1 }

/-- A collider at the origin whose support function is constantly the
origin (a degenerate point shape), so Minkowski differences against it
coincide with the other shape's own support. -/
def pointCollider (K : Type) [LinearOrderedField K] : Collider K :=
  ⟨⟨0, 0⟩, fun _ => ⟨0, 0⟩⟩

/-! ## Helper lemmas -/

/-- Whatever the fuel, the number of polytope insertions `epa` performs from
iteration counter `iterations` is bounded by
`MAX_PHYSICS_ITERATIONS + 1 - iterations`: the guard `iterations > MAX`
stops the loop after at most `MAX + 1` expanding passes. -/
theorem epaInserts_le (ops : Ops K) (s1 s2 : Collider K) :
    ∀ (fuel : ℕ) (P : List (V2 K)) (minN : V2 K) (minI iterations : ℕ),
      epaInserts ops s1 s2 fuel P minN minI iterations ≤
        MAX_PHYSICS_ITERATIONS + 1 - iterations := by
  intro fuel
  induction fuel with
  | zero => intro P minN minI it; simp [epaInserts]
  | succ fuel ih =>
    intro P minN minI it
    rw [epaInserts]
    split
    · omega
    · next hit =>
      dsimp only
      split
      · next =>
        have h := ih (List.insertIdx (epaScan ops P minN minI).index
          (support s1 s2 (epaScan ops P minN minI).normal) P)
          (epaScan ops P minN minI).normal (epaScan ops P minN minI).index
          (it + 1)
        simp only [MAX_PHYSICS_ITERATIONS] at hit h ⊢
        omega
      · split
        · next =>
          have h := ih (List.insertIdx (epaScan ops P minN minI).index
            (support s1 s2 (epaScan ops P minN minI).normal) P)
            (epaScan ops P minN minI).normal (epaScan ops P minN minI).index
            (it + 1)
          simp only [MAX_PHYSICS_ITERATIONS] at hit h ⊢
          omega
        · omega

/-- Once the iteration counter exceeds the cap, `epaGo` returns `none`. -/
theorem epaGo_cap (ops : Ops K) (s1 s2 : Collider K) (fuel : ℕ)
    (P : List (V2 K)) (minN : V2 K) (minI iterations : ℕ)
    (h : MAX_PHYSICS_ITERATIONS < iterations) :
    epaGo ops s1 s2 fuel P minN minI iterations = none := by
  cases fuel with
  | zero => rfl
  | succ fuel => rw [epaGo]; rw [if_pos h]

end Physics2

namespace Physics2

variable {K : Type} [LinearOrderedField K]

set_option maxRecDepth 1000000
set_option maxHeartbeats 4000000

/-! ## Claim C1 — GJK initial search direction -/

/-- C1 (counterexample): for the quads centered at `(0,0)` and `(1,0)` —
whose centers do not coincide — the direction `gjk` actually starts from is
`(1,0)`, the normalized vector from the first shape's center to the
second's, not the spec's "normalized vector from B's center to A's center",
which is `(-1,0)`. -/
theorem gjk_initial_direction_not_b_to_a :
    (quadCollider ratOps quadAtOrigin).center ≠
        (quadCollider ratOps quadAtOne).center ∧
      gjkInitialDirection ratOps (quadCollider ratOps quadAtOrigin)
          (quadCollider ratOps quadAtOne) ≠
        gjkInitialDirectionClaimed ratOps (quadCollider ratOps quadAtOrigin)
          (quadCollider ratOps quadAtOne) := by
  with_unfolding_all decide

/-- C1 (amended): for every pair of colliders, `gjk A B` initializes its
search direction to the normalized vector from A's center to B's center
(`normalize (B.center - A.center)`), seeds the simplex with the support
point along that direction, and continues with `d = -simplex[0]`. -/
theorem gjk_initial_direction_a_to_b (ops : Ops K) (fuel : ℕ)
    (s1 s2 : Collider K) :
    gjkInitialDirection ops s1 s2 = normalizeV ops (vsub s2.center s1.center) ∧
    gjk ops fuel s1 s2 =
      gjkGo s1 s2 fuel
        [support s1 s2 (normalizeV ops (vsub s2.center s1.center))]
        (vneg (support s1 s2 (normalizeV ops (vsub s2.center s1.center)))) :=
  ⟨rfl, rfl⟩

/-! ## Claim C2 — EPA iteration budget -/

/-- C2 (counterexample): with the constant-support collider pair and the
degenerate all-equal initial polytope, EPA performs exactly `101`
expansion iterations — one more than `MAX_PHYSICS_ITERATIONS` — because the
guard is `iterations > MAX_PHYSICS_ITERATIONS` and `iterations` is
incremented after the insertion. -/
theorem epa_performs_101_expansion_iterations :
    epaInserts ratOps constCollider zeroCollider (MAX_PHYSICS_ITERATIONS + 2)
        degeneratePolytope vzero 0 0 = MAX_PHYSICS_ITERATIONS + 1 := by
  with_unfolding_all decide

/-- C2 (amended): for every pair of shapes and every initial polytope, the
EPA loop terminates, performing at most `MAX_PHYSICS_ITERATIONS + 1 = 101`
expansion iterations (the guard `iterations > MAX_PHYSICS_ITERATIONS`
admits one pass more than the cap), and once the iteration counter exceeds
the cap it returns `None` rather than a collision result. -/
theorem epa_terminates_within_101_inserts (ops : Ops K)
    (s1 s2 : Collider K) :
    (∀ (P : List (V2 K)) (minN : V2 K) (minI : ℕ),
        epaInserts ops s1 s2 (MAX_PHYSICS_ITERATIONS + 2) P minN minI 0 ≤
          MAX_PHYSICS_ITERATIONS + 1) ∧
    (∀ (fuel : ℕ) (P : List (V2 K)) (minN : V2 K) (minI iterations : ℕ),
        MAX_PHYSICS_ITERATIONS < iterations →
        epaGo ops s1 s2 fuel P minN minI iterations = none) := by
  constructor
  · intro P minN minI
    simpa using epaInserts_le ops s1 s2 (MAX_PHYSICS_ITERATIONS + 2) P minN minI 0
  · intro fuel P minN minI iterations h
    exact epaGo_cap ops s1 s2 fuel P minN minI iterations h

/-- C2 (witness): the bound and the cap-exhaustion behaviour at concrete
inputs: the triangle collider's converging run stays within the budget, and
a call entered with `iterations = 101` returns `none`. -/
theorem epa_terminates_within_101_inserts_witness :
    epaInserts ratOps (triCollider ℚ) (pointCollider ℚ)
        (MAX_PHYSICS_ITERATIONS + 2) [⟨0, 3⟩, ⟨-3, -3⟩, ⟨3, -3⟩] vzero 0 0 ≤
      MAX_PHYSICS_ITERATIONS + 1 ∧
    epaGo ratOps (triCollider ℚ) (pointCollider ℚ) 5 [⟨0, 3⟩] vzero 0 101 =
      none :=
  ⟨(epa_terminates_within_101_inserts ratOps (triCollider ℚ)
      (pointCollider ℚ)).1 _ _ _,
   (epa_terminates_within_101_inserts ratOps (triCollider ℚ)
      (pointCollider ℚ)).2 5 _ _ 0 101 (by decide)⟩

/-! ## Claim C4 — resolution loop structure -/

/-- C4 (counterexample): on the falling-stack scene (no gravity, `ts = 1`),
running `fixed_update`'s loop with the spec's claimed initialization
`solved = true` leaves the scene untouched by the loop — the loop condition
`!solved && iterations < MAX` fails immediately — and produces a different
final state than the actual `fixed_update`, whose loop starts with
`solved = false`. -/
theorem solver_loop_initialized_true_gives_wrong_result :
    integratePass (1 : ℚ)
        (solverLoop ratOps 20 1 false
          (gravityPass ⟨0, 0⟩ 1 [stackTop, stackGround]) true 0) ≠
      fixedUpdateQuads ratOps 20 ⟨0, 0⟩ false 1 [stackTop, stackGround] := by
  with_unfolding_all decide

/-- C4 (amended): `fixed_update` enters its resolution loop with
`solved = false` (so the first pass always runs) and `iterations = 0`; the
loop body runs exactly when `solved` is `false` and the counter is below
`MAX_PHYSICS_ITERATIONS = 100`, re-entering with the pass result and the
flag set to "no contact fired", and returns the state unchanged as soon as
the condition fails. -/
theorem solver_loop_enters_with_solved_false (ops : Ops K) (fuel : ℕ)
    (ts : K) (sweeping : Bool) :
    (∀ (gravity : V2 K) (quads : List (Quad K)),
        fixedUpdateQuads ops fuel gravity sweeping ts quads =
          integratePass ts
            (solverLoop ops fuel ts sweeping (gravityPass gravity ts quads)
              false 0)) ∧
    (∀ (loopFuel : ℕ) (quads : List (Quad K)) (solved : Bool)
        (iterations : ℕ),
        ¬(solved = false ∧ iterations < MAX_PHYSICS_ITERATIONS) →
        solverLoopF ops fuel ts sweeping loopFuel quads solved iterations =
          quads) ∧
    (∀ (loopFuel : ℕ) (quads : List (Quad K)) (iterations : ℕ),
        iterations < MAX_PHYSICS_ITERATIONS →
        solverLoopF ops fuel ts sweeping (loopFuel + 1) quads false
            iterations =
          solverLoopF ops fuel ts sweeping loopFuel
            (resolutionPass ops fuel ts sweeping quads).1
            (!(resolutionPass ops fuel ts sweeping quads).2)
            (iterations + 1)) := by
  refine ⟨fun gravity quads => rfl, ?_, ?_⟩
  · intro loopFuel quads solved iterations h
    cases loopFuel with
    | zero => rfl
    | succ n => rw [solverLoopF]; rw [if_neg h]
  · intro loopFuel quads iterations h
    rw [solverLoopF]
    rw [if_pos ⟨rfl, h⟩]

/-- C4 (witness): the loop-structure properties at concrete inputs: the
empty scene's fixed update factors through the loop started at
`(false, 0)`; a loop entered with `solved = true` returns its input; a loop
entered below the cap with `solved = false` runs one pass. -/
theorem solver_loop_enters_with_solved_false_witness :
    fixedUpdateQuads ratOps 5 ⟨0, 0⟩ false 1 [] =
        integratePass 1
          (solverLoop ratOps 5 1 false (gravityPass ⟨0, 0⟩ 1 []) false 0) ∧
      solverLoopF ratOps 5 1 false 3 [stackGround] true 0 = [stackGround] ∧
      solverLoopF ratOps 5 1 false 3 [] false 7 =
        solverLoopF ratOps 5 1 false 2 (resolutionPass ratOps 5 1 false []).1
          (!(resolutionPass ratOps 5 1 false []).2) 8 :=
  ⟨(solver_loop_enters_with_solved_false ratOps 5 1 false).1 ⟨0, 0⟩ [],
   (solver_loop_enters_with_solved_false ratOps 5 1 false).2.1 3 [stackGround]
     true 0 (by decide),
   (solver_loop_enters_with_solved_false ratOps 5 1 false).2.2 2 [] 7
     (by decide)⟩

end Physics2

namespace Physics2

variable {K : Type} [LinearOrderedField K]

/-! ## Claim C6 — static bodies are untouched by `fixed_update` -/

/-- A static body is returned unchanged, with no fired contacts, by its
per-body step of a resolution pass. -/
theorem processBody_static (ops : Ops K) (fuel : ℕ) (ts : K)
    (sweeping : Bool) (old : List (Quad K)) (index : ℕ) (quad : Quad K)
    (h : quad.dynamic = false) :
    processBody ops fuel ts sweeping old index quad = (quad, []) := by
  simp [processBody, h]

/-- A resolution pass maps the slot of a static body to the same body. -/
theorem resolutionPass_static (ops : Ops K) (fuel : ℕ) (ts : K)
    (sweeping : Bool) (quads : List (Quad K)) (i : ℕ) (q : Quad K)
    (h : quads[i]? = some q) (hq : q.dynamic = false) :
    (resolutionPass ops fuel ts sweeping quads).1[i]? = some q := by
  simp only [resolutionPass, resolutionPassFull, List.getElem?_map,
    List.getElem?_enum, h, Option.map_map, Option.map_some]
  simp [Function.comp, processBody_static _ _ _ _ _ _ _ hq]

/-- The resolution loop maps the slot of a static body to the same body. -/
theorem solverLoopF_static (ops : Ops K) (fuel : ℕ) (ts : K)
    (sweeping : Bool) (i : ℕ) (q : Quad K) (hq : q.dynamic = false) :
    ∀ (loopFuel : ℕ) (quads : List (Quad K)) (solved : Bool)
      (iterations : ℕ), quads[i]? = some q →
      (solverLoopF ops fuel ts sweeping loopFuel quads solved
          iterations)[i]? = some q := by
  intro loopFuel
  induction loopFuel with
  | zero => intro quads solved iterations h; exact h
  | succ n ih =>
    intro quads solved iterations h
    rw [solverLoopF]
    split
    · exact ih _ _ _ (resolutionPass_static ops fuel ts sweeping quads i q h hq)
    · exact h

/-- C6: a body whose `dynamic` flag is `false` comes out of `fixed_update`
exactly as it went in — same position, velocity, rotation, angular
velocity, scale, color and flag — regardless of any collisions it
participates in. -/
theorem fixed_update_preserves_static (ops : Ops K) (fuel : ℕ)
    (gravity : V2 K) (sweeping : Bool) (ts : K) (quads : List (Quad K))
    (i : ℕ) (q : Quad K) (h : quads[i]? = some q)
    (hq : q.dynamic = false) :
    (fixedUpdateQuads ops fuel gravity sweeping ts quads)[i]? = some q := by
  have hg : (gravityPass gravity ts quads)[i]? = some q := by
    simp [gravityPass, List.getElem?_map, h, hq]
  have hl := solverLoopF_static ops fuel ts sweeping i q hq
    (MAX_PHYSICS_ITERATIONS + 1) (gravityPass gravity ts quads) false 0 hg
  simp only [fixedUpdateQuads, integratePass, solverLoop]
  simp [List.getElem?_map, hl, hq]

/-- C6 (witness): the static ground quad alone in the scene is bitwise
unchanged by a fixed update under gravity. -/
theorem fixed_update_preserves_static_witness :
    ([stackGround] : List (Quad ℚ))[0]? = some stackGround ∧
      stackGround.dynamic = false ∧
      (fixedUpdateQuads ratOps 5 ⟨0, -981/100⟩ false (1/100)
          [stackGround])[0]? = some stackGround := by
  refine ⟨rfl, rfl, ?_⟩
  exact fixed_update_preserves_static ratOps 5 ⟨0, -981/100⟩ false (1/100)
    [stackGround] 0 stackGround rfl rfl

end Physics2

namespace Physics2

variable {K : Type} [LinearOrderedField K]

/-! ## Claim C8 — the swept collider -/

/-- C8: the swept collider's `center` is the `t = 0.5` interpolation of the
two positions, i.e. their midpoint; its support point is the base shape's
support offset from the base center placed at one of the two swept
positions — whichever projects further along the queried direction — which
is exactly the support function of the convex hull of the shape translated
to the two positions (the maximum of the two translates' projections). -/
theorem sweeping_center_midpoint_and_hull_support (c : Collider K)
    (position_a position_b : V2 K) :
    ((mkSweeping c position_a position_b).center =
        lerpV position_a position_b (1 / 2) ∧
      (mkSweeping c position_a position_b).center =
        vsmul (1 / 2) (vadd position_a position_b)) ∧
    ∀ d : V2 K,
      ((mkSweeping c position_a position_b).furthest_point_in_direction d =
          vadd (vsub (c.furthest_point_in_direction d) c.center) position_a ∨
        (mkSweeping c position_a position_b).furthest_point_in_direction d =
          vadd (vsub (c.furthest_point_in_direction d) c.center) position_b) ∧
      vdot ((mkSweeping c position_a position_b).furthest_point_in_direction
          d) d =
        max (vdot (vadd (vsub (c.furthest_point_in_direction d) c.center)
              position_a) d)
          (vdot (vadd (vsub (c.furthest_point_in_direction d) c.center)
              position_b) d) := by
  refine ⟨⟨rfl, ?_⟩, ?_⟩
  · cases position_a with
    | mk ax ay =>
      cases position_b with
      | mk bx by2 =>
        simp only [mkSweeping, lerpV, vadd, vsmul, vsub, V2.mk.injEq]
        constructor <;> ring
  · intro d
    simp only [mkSweeping]
    rcases lt_or_ge
        (vdot (vadd (vsub (c.furthest_point_in_direction d) c.center)
          position_b) d)
        (vdot (vadd (vsub (c.furthest_point_in_direction d) c.center)
          position_a) d) with h | h
    · rw [if_pos h]
      exact ⟨Or.inl rfl, (max_eq_left (le_of_lt h)).symm⟩
    · rw [if_neg (not_lt.mpr h)]
      exact ⟨Or.inr rfl, (max_eq_right h).symm⟩

end Physics2

namespace Physics2

variable {K : Type} [LinearOrderedField K]

set_option maxRecDepth 1000000
set_option maxHeartbeats 4000000

/-! ## Claim C7 — the rectangle support function -/

/-- C7: the rectangle's support function enumerates the four corners built
from the half-extents, rotated by the orientation and translated by the
position, in the order bottom-left, top-left, bottom-right, top-right, and
returns the corner with the maximum projection onto the direction, ties
keeping the first-encountered maximum (the returned corner appears at an
index `i` such that every corner's projection is at most the result's, and
any corner attaining the maximum sits at an index `≥ i`). -/
theorem quad_furthest_is_first_max_corner (ops : Ops K) (q : Quad K)
    (d : V2 K) :
    quadCorners ops q =
      [vadd ⟨(-q.scale.x * (1 / 2)) * ops.cos (-q.rotation) -
            (-q.scale.y * (1 / 2)) * ops.sin (-q.rotation),
          (-q.scale.y * (1 / 2)) * ops.cos (-q.rotation) +
            (-q.scale.x * (1 / 2)) * ops.sin (-q.rotation)⟩ q.position,
        vadd ⟨(-q.scale.x * (1 / 2)) * ops.cos (-q.rotation) -
            (q.scale.y * (1 / 2)) * ops.sin (-q.rotation),
          (q.scale.y * (1 / 2)) * ops.cos (-q.rotation) +
            (-q.scale.x * (1 / 2)) * ops.sin (-q.rotation)⟩ q.position,
        vadd ⟨(q.scale.x * (1 / 2)) * ops.cos (-q.rotation) -
            (-q.scale.y * (1 / 2)) * ops.sin (-q.rotation),
          (-q.scale.y * (1 / 2)) * ops.cos (-q.rotation) +
            (q.scale.x * (1 / 2)) * ops.sin (-q.rotation)⟩ q.position,
        vadd ⟨(q.scale.x * (1 / 2)) * ops.cos (-q.rotation) -
            (q.scale.y * (1 / 2)) * ops.sin (-q.rotation),
          (q.scale.y * (1 / 2)) * ops.cos (-q.rotation) +
            (q.scale.x * (1 / 2)) * ops.sin (-q.rotation)⟩ q.position] ∧
    ∃ i : Fin (quadCorners ops q).length,
      (quadCorners ops q).get i = quadFurthest ops q d ∧
      (∀ j : Fin (quadCorners ops q).length,
        vdot ((quadCorners ops q).get j) d ≤ vdot (quadFurthest ops q d) d) ∧
      (∀ j : Fin (quadCorners ops q).length,
        vdot ((quadCorners ops q).get j) d = vdot (quadFurthest ops q d) d →
        (i : ℕ) ≤ (j : ℕ)) := by
  refine ⟨rfl, ?_⟩
  simp only [quadFurthest, quadCorners, List.map, List.foldl, List.length]
  split_ifs with h1 h2 h3 h4 h5 h6 h7 <;>
    [refine ⟨⟨3, by omega⟩, rfl, ?_, ?_⟩;
     refine ⟨⟨2, by omega⟩, rfl, ?_, ?_⟩;
     refine ⟨⟨3, by omega⟩, rfl, ?_, ?_⟩;
     refine ⟨⟨1, by omega⟩, rfl, ?_, ?_⟩;
     refine ⟨⟨3, by omega⟩, rfl, ?_, ?_⟩;
     refine ⟨⟨2, by omega⟩, rfl, ?_, ?_⟩;
     refine ⟨⟨3, by omega⟩, rfl, ?_, ?_⟩;
     refine ⟨⟨0, by omega⟩, rfl, ?_, ?_⟩] <;>
    first
      | (intro j; fin_cases j <;> simp only [List.get, Fin.val] <;> linarith)
      | (intro j; fin_cases j <;> simp only [List.get, Fin.val] <;>
          (intro hj; first | omega | linarith))

/-- C7 (witness): the characterization instantiated at the unit direction
`(1,0)` and the 2×2 square at the origin. -/
theorem quad_furthest_is_first_max_corner_witness :
    quadCorners ratOps quadAtOrigin =
      [vadd ⟨(-quadAtOrigin.scale.x * (1 / 2)) *
            ratOps.cos (-quadAtOrigin.rotation) -
            (-quadAtOrigin.scale.y * (1 / 2)) *
            ratOps.sin (-quadAtOrigin.rotation),
          (-quadAtOrigin.scale.y * (1 / 2)) *
            ratOps.cos (-quadAtOrigin.rotation) +
            (-quadAtOrigin.scale.x * (1 / 2)) *
            ratOps.sin (-quadAtOrigin.rotation)⟩ quadAtOrigin.position,
        vadd ⟨(-quadAtOrigin.scale.x * (1 / 2)) *
            ratOps.cos (-quadAtOrigin.rotation) -
            (quadAtOrigin.scale.y * (1 / 2)) *
            ratOps.sin (-quadAtOrigin.rotation),
          (quadAtOrigin.scale.y * (1 / 2)) *
            ratOps.cos (-quadAtOrigin.rotation) +
            (-quadAtOrigin.scale.x * (1 / 2)) *
            ratOps.sin (-quadAtOrigin.rotation)⟩ quadAtOrigin.position,
        vadd ⟨(quadAtOrigin.scale.x * (1 / 2)) *
            ratOps.cos (-quadAtOrigin.rotation) -
            (-quadAtOrigin.scale.y * (1 / 2)) *
            ratOps.sin (-quadAtOrigin.rotation),
          (-quadAtOrigin.scale.y * (1 / 2)) *
            ratOps.cos (-quadAtOrigin.rotation) +
            (quadAtOrigin.scale.x * (1 / 2)) *
            ratOps.sin (-quadAtOrigin.rotation)⟩ quadAtOrigin.position,
        vadd ⟨(quadAtOrigin.scale.x * (1 / 2)) *
            ratOps.cos (-quadAtOrigin.rotation) -
            (quadAtOrigin.scale.y * (1 / 2)) *
            ratOps.sin (-quadAtOrigin.rotation),
          (quadAtOrigin.scale.y * (1 / 2)) *
            ratOps.cos (-quadAtOrigin.rotation) +
            (quadAtOrigin.scale.x * (1 / 2)) *
            ratOps.sin (-quadAtOrigin.rotation)⟩ quadAtOrigin.position] ∧
    ∃ i : Fin (quadCorners ratOps quadAtOrigin).length,
      (quadCorners ratOps quadAtOrigin).get i =
          quadFurthest ratOps quadAtOrigin ⟨1, 0⟩ ∧
        (∀ j : Fin (quadCorners ratOps quadAtOrigin).length,
          vdot ((quadCorners ratOps quadAtOrigin).get j) ⟨1, 0⟩ ≤
            vdot (quadFurthest ratOps quadAtOrigin ⟨1, 0⟩) ⟨1, 0⟩) ∧
        (∀ j : Fin (quadCorners ratOps quadAtOrigin).length,
          vdot ((quadCorners ratOps quadAtOrigin).get j) ⟨1, 0⟩ =
            vdot (quadFurthest ratOps quadAtOrigin ⟨1, 0⟩) ⟨1, 0⟩ →
          (i : ℕ) ≤ (j : ℕ)) :=
  quad_furthest_is_first_max_corner ratOps quadAtOrigin ⟨1, 0⟩

end Physics2

namespace Physics2

variable {K : Type} [LinearOrderedField K]

set_option maxRecDepth 1000000
set_option maxHeartbeats 4000000

/-! ## Claims C3 and C10 — the pairwise contact step -/

/-- C3 (amended): a pairwise contact fires exactly when the mode's collider
query finds a collision and the relative velocity (other minus this body)
along the negated normal is non-negative; when it fires, the position delta
is decremented by `normal * depth / dynamic_count` of a fresh non-swept
`get_collision` query on the two quads when that query finds a collision
(in non-sweeping mode this re-query coincides with the firing query) and is
left unchanged when it does not, the velocity delta is decremented by the
relative normal-velocity component along the firing normal, and a static
body is returned unchanged by its pass step, receiving no correction at
all. -/
theorem collide_step_characterization (ops : Ops K) (fuel : ℕ) (ts : K)
    (sweeping : Bool) (index : ℕ) (quad : Quad K) (acc : StepAcc K)
    (oi : ℕ) (other : Quad K) :
    ((collideStep ops fuel ts sweeping index quad acc (oi, other)).fired ≠
        acc.fired ↔
      oi ≠ index ∧ ∃ c,
        getCollision ops fuel (pairColliders ops ts sweeping quad acc other).1
            (pairColliders ops ts sweeping quad acc other).2 = some c ∧
        0 ≤ vdot (vsub other.velocity quad.velocity) (vneg c.normal)) ∧
    (∀ c : Collision K, oi ≠ index →
      getCollision ops fuel (pairColliders ops ts sweeping quad acc other).1
          (pairColliders ops ts sweeping quad acc other).2 = some c →
      0 ≤ vdot (vsub other.velocity quad.velocity) (vneg c.normal) →
      collideStep ops fuel ts sweeping index quad acc (oi, other) =
        { posDelta :=
            match getCollision ops fuel (quadCollider ops quad)
                (quadCollider ops other) with
            | some c2 =>
              vsub acc.posDelta
                (vsmul (c2.depth /
                    (((if quad.dynamic then 1 else 0) +
                        (if other.dynamic then 1 else 0) : ℕ) : K))
                  c2.normal)
            | none => acc.posDelta
          velDelta :=
            vsub acc.velDelta
              (vsmul (vdot (vneg (vsub other.velocity quad.velocity))
                  c.normal) c.normal)
          fired := acc.fired ++ [(oi, c.normal)] }) ∧
    (∀ (old : List (Quad K)) (idx : ℕ) (qs : Quad K), qs.dynamic = false →
      processBody ops fuel ts sweeping old idx qs = (qs, [])) := by
  refine ⟨?_, ?_, fun old idx qs h => by simp [processBody, h]⟩
  · by_cases hoi : oi = index
    · simp [collideStep, hoi]
    · simp only [collideStep, if_neg hoi]
      cases hq : getCollision ops fuel
          (pairColliders ops ts sweeping quad acc other).1
          (pairColliders ops ts sweeping quad acc other).2 with
      | none => simp [hq, hoi]
      | some c =>
        dsimp only
        by_cases hv :
            0 ≤ vdot (vsub other.velocity quad.velocity) (vneg c.normal)
        · rw [if_pos hv]
          simp only [ne_eq, hoi, not_false_iff, true_and]
          constructor
          · intro _
            exact ⟨c, rfl, hv⟩
          · intro _ h
            have := congrArg List.length h
            simp at this
        · rw [if_neg hv]
          simp only [ne_eq, not_true_eq_false, false_iff, not_and, Option.some.injEq]
          intro hne
          rintro ⟨c2, hc2, hv2⟩
          exact hv (hc2 ▸ hv2)
  · intro c hoi hq hv
    simp only [collideStep, if_neg hoi]
    dsimp only
    rw [hq]
    dsimp only
    rw [if_pos hv]

end Physics2

namespace Physics2

variable {K : Type} [LinearOrderedField K]

set_option maxRecDepth 1000000
set_option maxHeartbeats 4000000

/-- C3 (counterexample): in sweeping mode, on the tunnelling scene (fast
bullet quad, thin distant wall, `ts = 1`), the swept-collider contact fires
with collision normal `(0,1)` and depth `1001/1000`, yet the body's
position delta stays zero — it is not decremented by
`normal * depth / dynamic_count` of the firing collision (which would be
the nonzero `(0, 1001/1000)`), because the position correction comes from a
separate non-swept query that finds no overlap at the current positions. -/
theorem collide_step_position_not_from_firing_collision :
    getCollision ratOps 20
        (pairColliders ratOps 1 true bulletQuad ⟨vzero, vzero, []⟩
          wallQuad).1
        (pairColliders ratOps 1 true bulletQuad ⟨vzero, vzero, []⟩
          wallQuad).2 = some ⟨⟨0, 1⟩, 1001 / 1000⟩ ∧
      0 ≤ vdot (vsub wallQuad.velocity bulletQuad.velocity)
          (vneg ⟨0, 1⟩) ∧
      (collideStep ratOps 20 1 true 0 bulletQuad ⟨vzero, vzero, []⟩
          (1, wallQuad)).fired = [(1, ⟨0, 1⟩)] ∧
      (collideStep ratOps 20 1 true 0 bulletQuad ⟨vzero, vzero, []⟩
          (1, wallQuad)).posDelta = vzero ∧
      (vzero : V2 ℚ) ≠
        vsub vzero
          (vsmul (((1001 : ℚ) / 1000) / (((1 : ℕ) : ℚ))) ⟨0, 1⟩) := by
  with_unfolding_all decide

/-- C3 (witness): the fired tunnelling contact's step equals the amended
description — position delta from the (here failing) non-swept re-query,
velocity delta along the firing swept collision's normal `(0,1)`. -/
theorem collide_step_characterization_witness :
    collideStep ratOps 20 1 true 0 bulletQuad ⟨vzero, vzero, []⟩
        (1, wallQuad) =
      { posDelta :=
          match getCollision ratOps 20 (quadCollider ratOps bulletQuad)
              (quadCollider ratOps wallQuad) with
          | some c2 =>
            vsub (⟨vzero, vzero, []⟩ : StepAcc ℚ).posDelta
              (vsmul (c2.depth /
                  (((if bulletQuad.dynamic then 1 else 0) +
                      (if wallQuad.dynamic then 1 else 0) : ℕ) : ℚ))
                c2.normal)
          | none => (⟨vzero, vzero, []⟩ : StepAcc ℚ).posDelta
        velDelta :=
          vsub (⟨vzero, vzero, []⟩ : StepAcc ℚ).velDelta
            (vsmul (vdot (vneg (vsub wallQuad.velocity bulletQuad.velocity))
                (⟨0, 1⟩ : V2 ℚ)) ⟨0, 1⟩)
        fired := (⟨vzero, vzero, []⟩ : StepAcc ℚ).fired ++ [(1, ⟨0, 1⟩)] } := by
  have h := (collide_step_characterization ratOps 20 1 true 0 bulletQuad
      ⟨vzero, vzero, []⟩ 1 wallQuad).2.1 ⟨⟨0, 1⟩, 1001 / 1000⟩
    (by decide) (by with_unfolding_all decide) (by with_unfolding_all decide)
  with_unfolding_all exact h

/-- C10: in sweeping mode, whenever the swept-collider query fires, the
velocity delta is corrected along the swept collision's normal, while the
position delta is taken from a second, separate `get_collision` query on
the bodies' current non-swept shapes — and in particular no position
correction at all is applied when the current shapes do not overlap. -/
theorem sweeping_position_correction_from_unswept_query (ops : Ops K)
    (fuel : ℕ) (ts : K) (index : ℕ) (quad : Quad K) (acc : StepAcc K)
    (oi : ℕ) (other : Quad K) (c : Collision K) (hoi : oi ≠ index)
    (hq : getCollision ops fuel (pairColliders ops ts true quad acc other).1
        (pairColliders ops ts true quad acc other).2 = some c)
    (hv : 0 ≤ vdot (vsub other.velocity quad.velocity) (vneg c.normal)) :
    (collideStep ops fuel ts true index quad acc (oi, other)).velDelta =
        vsub acc.velDelta
          (vsmul (vdot (vneg (vsub other.velocity quad.velocity)) c.normal)
            c.normal) ∧
      (collideStep ops fuel ts true index quad acc (oi, other)).posDelta =
        (match getCollision ops fuel (quadCollider ops quad)
            (quadCollider ops other) with
         | some c2 =>
           vsub acc.posDelta
             (vsmul (c2.depth /
                 (((if quad.dynamic then 1 else 0) +
                     (if other.dynamic then 1 else 0) : ℕ) : K))
               c2.normal)
         | none => acc.posDelta) ∧
      (getCollision ops fuel (quadCollider ops quad)
          (quadCollider ops other) = none →
        (collideStep ops fuel ts true index quad acc (oi, other)).posDelta =
          acc.posDelta) := by
  simp only [collideStep, if_neg hoi]
  dsimp only
  rw [hq]
  dsimp only
  rw [if_pos hv]
  refine ⟨rfl, rfl, fun hnone => ?_⟩
  simp [hnone]

/-- C10 (witness): on the tunnelling scene the swept contact fires; the
non-swept re-query finds nothing, so the position delta stays zero while
the velocity delta follows the swept normal. -/
theorem sweeping_position_correction_from_unswept_query_witness :
    (collideStep ratOps 20 1 true 0 bulletQuad ⟨vzero, vzero, []⟩
          (1, wallQuad)).velDelta =
        vsub (⟨vzero, vzero, []⟩ : StepAcc ℚ).velDelta
          (vsmul (vdot (vneg (vsub wallQuad.velocity bulletQuad.velocity))
              (⟨0, 1⟩ : V2 ℚ)) ⟨0, 1⟩) ∧
      (collideStep ratOps 20 1 true 0 bulletQuad ⟨vzero, vzero, []⟩
          (1, wallQuad)).posDelta =
        (match getCollision ratOps 20 (quadCollider ratOps bulletQuad)
            (quadCollider ratOps wallQuad) with
         | some c2 =>
           vsub (⟨vzero, vzero, []⟩ : StepAcc ℚ).posDelta
             (vsmul (c2.depth /
                 (((if bulletQuad.dynamic then 1 else 0) +
                     (if wallQuad.dynamic then 1 else 0) : ℕ) : ℚ))
               c2.normal)
         | none => (⟨vzero, vzero, []⟩ : StepAcc ℚ).posDelta) ∧
      (getCollision ratOps 20 (quadCollider ratOps bulletQuad)
          (quadCollider ratOps wallQuad) = none →
        (collideStep ratOps 20 1 true 0 bulletQuad ⟨vzero, vzero, []⟩
            (1, wallQuad)).posDelta =
          (⟨vzero, vzero, []⟩ : StepAcc ℚ).posDelta) := by
  have h := sweeping_position_correction_from_unswept_query
    ratOps 20 1 0 bulletQuad ⟨vzero, vzero, []⟩ 1 wallQuad
    ⟨⟨0, 1⟩, 1001 / 1000⟩ (by decide) (by with_unfolding_all decide)
    (by with_unfolding_all decide)
  with_unfolding_all exact h

end Physics2

namespace Physics2

variable {K : Type} [LinearOrderedField K]

set_option maxRecDepth 1000000
set_option maxHeartbeats 4000000

/-! ## Claim C9 — post-pass contact velocities -/

/-- A pairwise step either leaves the accumulator entirely unchanged, or
appends exactly one fired record and subtracts that collision's relative
normal-velocity component from the velocity delta. -/
theorem collideStep_shape (ops : Ops K) (fuel : ℕ) (ts : K)
    (sweeping : Bool) (index : ℕ) (quad : Quad K) (acc : StepAcc K)
    (entry : ℕ × Quad K) :
    collideStep ops fuel ts sweeping index quad acc entry = acc ∨
      ∃ c : Collision K,
        (collideStep ops fuel ts sweeping index quad acc entry).fired =
            acc.fired ++ [(entry.1, c.normal)] ∧
          (collideStep ops fuel ts sweeping index quad acc entry).velDelta =
            vsub acc.velDelta
              (vsmul (vdot (vneg (vsub entry.2.velocity quad.velocity))
                  c.normal) c.normal) := by
  by_cases hoi : entry.1 = index
  · left; simp [collideStep, hoi]
  · simp only [collideStep, if_neg hoi]
    cases hq : getCollision ops fuel
        (pairColliders ops ts sweeping quad acc entry.2).1
        (pairColliders ops ts sweeping quad acc entry.2).2 with
    | none => left; rfl
    | some c =>
      dsimp only
      by_cases hv :
          0 ≤ vdot (vsub entry.2.velocity quad.velocity) (vneg c.normal)
      · rw [if_pos hv]; right; exact ⟨c, rfl, rfl⟩
      · rw [if_neg hv]; left; rfl

/-- The fired list of a folded pairwise loop extends the initial one. -/
theorem collideFold_fired_append (ops : Ops K) (fuel : ℕ) (ts : K)
    (sweeping : Bool) (index : ℕ) (quad : Quad K) :
    ∀ (entries : List (ℕ × Quad K)) (acc : StepAcc K),
      ∃ l, (entries.foldl (collideStep ops fuel ts sweeping index quad)
          acc).fired = acc.fired ++ l := by
  intro entries
  induction entries with
  | nil => intro acc; exact ⟨[], by simp⟩
  | cons e es ih =>
    intro acc
    rcases collideStep_shape ops fuel ts sweeping index quad acc e with h | ⟨c, hf, _⟩
    · simpa [List.foldl, h] using ih acc
    · rcases ih (collideStep ops fuel ts sweeping index quad acc e) with ⟨l, hl⟩
      exact ⟨(e.1, c.normal) :: l, by simp [List.foldl, hl, hf]⟩

/-- If folding the pairwise loop fires nothing, it changes nothing. -/
theorem collideFold_no_fire (ops : Ops K) (fuel : ℕ) (ts : K)
    (sweeping : Bool) (index : ℕ) (quad : Quad K) :
    ∀ (entries : List (ℕ × Quad K)) (acc : StepAcc K),
      (entries.foldl (collideStep ops fuel ts sweeping index quad)
          acc).fired = acc.fired →
      entries.foldl (collideStep ops fuel ts sweeping index quad) acc =
        acc := by
  intro entries
  induction entries with
  | nil => intro acc _; rfl
  | cons e es ih =>
    intro acc h
    rcases collideStep_shape ops fuel ts sweeping index quad acc e with
      hs | ⟨c, hf, _⟩
    · rw [List.foldl, hs] at h ⊢; exact ih acc h
    · exfalso
      rcases collideFold_fired_append ops fuel ts sweeping index quad es
          (collideStep ops fuel ts sweeping index quad acc e) with ⟨l, hl⟩
      rw [List.foldl] at h
      rw [hl, hf] at h
      have := congrArg List.length h
      simp at this

/-- If folding the pairwise loop fires exactly one contact `(j, n)`, then
the snapshot has an entry `(j, other)` and the accumulated velocity delta
is exactly that contact's relative normal-velocity correction. -/
theorem collideFold_single_fire (ops : Ops K) (fuel : ℕ) (ts : K)
    (sweeping : Bool) (index : ℕ) (quad : Quad K) :
    ∀ (entries : List (ℕ × Quad K)) (acc : StepAcc K) (j : ℕ) (n : V2 K),
      (entries.foldl (collideStep ops fuel ts sweeping index quad)
          acc).fired = acc.fired ++ [(j, n)] →
      ∃ other : Quad K, (j, other) ∈ entries ∧
        (entries.foldl (collideStep ops fuel ts sweeping index quad)
            acc).velDelta =
          vsub acc.velDelta
            (vsmul (vdot (vneg (vsub other.velocity quad.velocity)) n) n) := by
  intro entries
  induction entries with
  | nil =>
    intro acc j n h
    exfalso
    have := congrArg List.length h
    simp at this
  | cons e es ih =>
    intro acc j n h
    rcases collideStep_shape ops fuel ts sweeping index quad acc e with
      hs | ⟨c, hf, hv⟩
    · rw [List.foldl, hs] at h ⊢
      rcases ih acc j n h with ⟨other, hm, hvel⟩
      exact ⟨other, List.mem_cons_of_mem _ hm, hvel⟩
    · rw [List.foldl] at h ⊢
      rcases collideFold_fired_append ops fuel ts sweeping index quad es
          (collideStep ops fuel ts sweeping index quad acc e) with ⟨l, hl⟩
      rw [hl, hf, List.append_assoc] at h
      have htail : [(e.1, c.normal)] ++ l = [(j, n)] :=
        List.append_cancel_left h
      have he1 : (e.1, c.normal) = (j, n) := by
        have := congrArg (fun t => t.headD (0, vzero)) htail
        simpa using this
      have hl0 : l = [] := by
        have := congrArg List.length htail
        simpa using this
      have hstable :
          es.foldl (collideStep ops fuel ts sweeping index quad)
              (collideStep ops fuel ts sweeping index quad acc e) =
            collideStep ops fuel ts sweeping index quad acc e := by
        apply collideFold_no_fire
        rw [hl, hl0, List.append_nil]
      refine ⟨e.2, ?_, ?_⟩
      · have : e = (j, e.2) := by
          have h1 : e.1 = j := congrArg Prod.fst he1
          exact Prod.ext h1 rfl
        rw [this] at *
        exact List.mem_cons_self _ _
      · rw [hstable, hv]
        have h1 : c.normal = n := congrArg Prod.snd he1
        rw [h1]

/-- C9 (counterexample): after one resolution pass of the three-body row
scene — left body moving right into the middle body, which also overlaps
the right body — the middle body (index 1) fired the contact `(2, (1,0))`
during the pass, yet its post-pass velocity is `(2,0)` while the right
body's is `(0,0)`: the relative velocity projected on the negated contact
normal is `2 > 0`, i.e. the middle body still moves into the right body
along a contact normal that fired. -/
theorem resolution_pass_contact_still_approaching :
    (resolutionPassFull ratOps 20 1 false [rowLeft, rowMid, rowRight]).map
        (fun r => (r.1.velocity, r.2)) =
      [(⟨0, 0⟩, [(1, ⟨1, 0⟩)]),
        (⟨2, 0⟩, [(0, ⟨-1, 0⟩), (2, ⟨1, 0⟩)]),
        (⟨0, 0⟩, [(1, ⟨-1, 0⟩)])] ∧
      ¬(vdot (vsub (⟨0, 0⟩ : V2 ℚ) ⟨2, 0⟩) (vneg ⟨1, 0⟩) ≤ 0) := by
  with_unfolding_all decide

/-- C9 (amended): if a dynamic body's pass step fired exactly one contact,
against a static body, with a unit-length contact normal, then after the
pass the (unchanged) static body's velocity relative to the body's new
velocity has exactly zero component along the negated contact normal — the
zeroing step's post-condition holds for an isolated contact, though not in
general when several contacts or two moving bodies interact. -/
theorem single_static_contact_zeroes_normal_velocity (ops : Ops K)
    (fuel : ℕ) (ts : K) (sweeping : Bool) (old : List (Quad K)) (i j : ℕ)
    (quad other : Quad K) (n : V2 K)
    (hi : old[i]? = some quad) (hq : quad.dynamic = true)
    (hfire : (processBody ops fuel ts sweeping old i quad).2 = [(j, n)])
    (hj : old[j]? = some other) (hother : other.dynamic = false)
    (hn : vdot n n = 1) :
    (resolutionPassFull ops fuel ts sweeping old)[i]? =
        some (processBody ops fuel ts sweeping old i quad) ∧
      (resolutionPass ops fuel ts sweeping old).1[j]? = some other ∧
      vdot (vsub other.velocity
          (processBody ops fuel ts sweeping old i quad).1.velocity)
        (vneg n) = 0 := by
  refine ⟨?_, resolutionPass_static ops fuel ts sweeping old j other hj hother, ?_⟩
  · simp [resolutionPassFull, List.getElem?_map, List.getElem?_enum, hi]
  · simp only [processBody, hq, if_pos] at hfire ⊢
    set acc := old.enum.foldl (collideStep ops fuel ts sweeping i quad)
      ⟨vzero, vzero, []⟩ with hacc
    have hfire2 : acc.fired = (⟨vzero, vzero, []⟩ : StepAcc K).fired ++ [(j, n)] := by
      simpa using hfire
    rcases collideFold_single_fire ops fuel ts sweeping i quad old.enum
        ⟨vzero, vzero, []⟩ j n (by rw [← hacc]; exact hfire2) with
      ⟨other2, hmem, hvel⟩
    have hother2 : other2 = other := by
      rw [List.mk_mem_enum_iff_getElem?] at hmem
      rw [hj] at hmem
      exact (Option.some.inj hmem).symm
    rw [hother2] at hvel
    rw [← hacc] at hvel
    rw [hvel]
    have hn2 : n.x * n.x + n.y * n.y = 1 := by simpa [vdot] using hn
    simp only [vdot, vsub, vadd, vsmul, vneg, vzero]
    linear_combination
      ((other.velocity.x - quad.velocity.x) * n.x +
        (other.velocity.y - quad.velocity.y) * n.y) * hn2

/-- C9 (witness): the falling square on the static ground fires exactly the
contact `(1, (0,-1))` with a unit normal; after the pass the relative
vertical velocity is exactly zero. -/
theorem single_static_contact_zeroes_normal_velocity_witness :
    (resolutionPassFull ratOps 20 1 false [stackTop, stackGround])[0]? =
        some (processBody ratOps 20 1 false [stackTop, stackGround] 0
          stackTop) ∧
      (resolutionPass ratOps 20 1 false [stackTop, stackGround]).1[1]? =
        some stackGround ∧
      vdot (vsub stackGround.velocity
          (processBody ratOps 20 1 false [stackTop, stackGround] 0
            stackTop).1.velocity)
        (vneg ⟨0, -1⟩) = 0 :=
  single_static_contact_zeroes_normal_velocity ratOps 20 1 false
    [stackTop, stackGround] 0 1 stackTop stackGround ⟨0, -1⟩ rfl rfl
    (by with_unfolding_all decide) rfl rfl (by with_unfolding_all decide)

end Physics2

namespace Physics2

variable {K : Type} [LinearOrderedField K]

set_option maxRecDepth 1000000
set_option maxHeartbeats 4000000

/-! ## Claim C5 — collision results have non-negative depth, unit normal -/

/-- A nonzero vector has positive squared length. -/
theorem vdot_self_pos (v : V2 K) (h : v ≠ vzero) : 0 < vdot v v := by
  cases v with
  | mk x y =>
    simp only [vdot]
    rcases lt_trichotomy (x * x + y * y) 0 with hlt | heq | hgt
    · nlinarith [mul_self_nonneg x, mul_self_nonneg y]
    · exfalso
      have hx : x = 0 := by nlinarith [mul_self_nonneg x, mul_self_nonneg y]
      have hy : y = 0 := by nlinarith [mul_self_nonneg x, mul_self_nonneg y]
      exact h (by simp [vzero, hx, hy])
    · exact hgt

/-- If the square-root operation is a genuine square root on non-negative
inputs, `normalize` of a nonzero vector has unit squared length. -/
theorem normalizeV_unit (ops : Ops K)
    (hsqrt : ∀ x : K, 0 ≤ x → 0 ≤ ops.sqrt x ∧ ops.sqrt x * ops.sqrt x = x)
    (v : V2 K) (hv : v ≠ vzero) :
    (normalizeV ops v).x ^ 2 + (normalizeV ops v).y ^ 2 = 1 := by
  have hpos := vdot_self_pos v hv
  obtain ⟨hs0, hs⟩ := hsqrt (vdot v v) (le_of_lt hpos)
  have hsne : ops.sqrt (vdot v v) ≠ 0 := by
    intro h0
    rw [h0, mul_zero] at hs
    rw [← hs] at hpos
    exact lt_irrefl 0 hpos
  simp only [normalizeV, vsmul]
  have hsplit :
      ((1 / ops.sqrt (vdot v v)) * v.x) ^ 2 +
          ((1 / ops.sqrt (vdot v v)) * v.y) ^ 2 =
        (v.x * v.x + v.y * v.y) /
          (ops.sqrt (vdot v v) * ops.sqrt (vdot v v)) := by
    field_simp
    ring
  rw [hsplit, hs]
  have h1 : v.x * v.x + v.y * v.y ≠ 0 := by
    have := ne_of_gt hpos
    simpa [vdot] using this
  simp only [vdot]
  exact div_self h1

/-- The invariant of EPA's minimum accumulator: whenever the tracked
minimum distance is finite, it is non-negative and its normal has unit
squared length. -/
def EpaMinOK (m : EpaMin K) : Prop :=
  ∀ md, m.dist = some md → 0 ≤ md ∧ m.normal.x ^ 2 + m.normal.y ^ 2 = 1


/-- Shape of one edge-scan step: either the accumulator is unchanged, or it
is replaced by a candidate built from a nonzero perpendicular vector `v`:
the normal is `normalize v`, possibly sign-flipped, and the recorded
distance is the correspondingly sign-corrected projection of `vertex_i`. -/
theorem epaScanStep_shape (ops : Ops K) (acc : EpaMin K)
    (e : V2 K × V2 K × ℕ) :
    epaScanStep ops acc e = acc ∨
      ∃ v : V2 K, v ≠ vzero ∧
        ((epaScanStep ops acc e).normal = normalizeV ops v ∧
            (epaScanStep ops acc e).dist =
              some (vdot (normalizeV ops v) e.1) ∧
            0 ≤ vdot (normalizeV ops v) e.1 ∨
          (epaScanStep ops acc e).normal = vsmul (-1) (normalizeV ops v) ∧
            (epaScanStep ops acc e).dist =
              some (vdot (normalizeV ops v) e.1 * -1) ∧
            0 ≤ vdot (normalizeV ops v) e.1 * -1) := by
  unfold epaScanStep
  by_cases hij : vsub e.2.1 e.1 = vzero
  · left; simp [hij]
  · simp only [if_neg hij]
    have hperp : (⟨(vsub e.2.1 e.1).y, -(vsub e.2.1 e.1).x⟩ : V2 K) ≠
        vzero := by
      intro hp
      apply hij
      cases hv : vsub e.2.1 e.1 with
      | mk a b =>
        rw [hv] at hp
        have hx := congrArg V2.x hp
        have hy := congrArg V2.y hp
        simp only [vzero] at hx hy
        have ha : a = 0 := by simpa [neg_eq_zero] using hy
        have hb : b = 0 := by simpa using hx
        simp [vzero, ha, hb]
    by_cases hneg :
        vdot (normalizeV ops ⟨(vsub e.2.1 e.1).y, -(vsub e.2.1 e.1).x⟩)
          e.1 < 0
    · simp only [if_pos hneg]
      cases hd : acc.dist with
      | none =>
        dsimp only
        right
        exact ⟨_, hperp, Or.inr ⟨rfl, rfl, by
          rw [mul_neg_one]; exact neg_nonneg.mpr (le_of_lt hneg)⟩⟩
      | some md =>
        dsimp only
        by_cases hlt :
            vdot (normalizeV ops ⟨(vsub e.2.1 e.1).y, -(vsub e.2.1 e.1).x⟩)
              e.1 * -1 < md
        · rw [if_pos hlt]
          right
          exact ⟨_, hperp, Or.inr ⟨rfl, rfl, by
            rw [mul_neg_one]; exact neg_nonneg.mpr (le_of_lt hneg)⟩⟩
        · rw [if_neg hlt]; left; rfl
    · simp only [if_neg hneg]
      cases hd : acc.dist with
      | none =>
        dsimp only
        right
        exact ⟨_, hperp, Or.inl ⟨rfl, rfl, not_lt.mp hneg⟩⟩
      | some md =>
        dsimp only
        by_cases hlt :
            vdot (normalizeV ops ⟨(vsub e.2.1 e.1).y, -(vsub e.2.1 e.1).x⟩)
              e.1 < md
        · rw [if_pos hlt]
          right
          exact ⟨_, hperp, Or.inl ⟨rfl, rfl, not_lt.mp hneg⟩⟩
        · rw [if_neg hlt]; left; rfl

/-- One edge-scan step preserves the accumulator invariant. -/
theorem epaScanStep_ok (ops : Ops K)
    (hsqrt : ∀ x : K, 0 ≤ x → 0 ≤ ops.sqrt x ∧ ops.sqrt x * ops.sqrt x = x)
    (acc : EpaMin K) (e : V2 K × V2 K × ℕ) (hacc : EpaMinOK acc) :
    EpaMinOK (epaScanStep ops acc e) := by
  rcases epaScanStep_shape ops acc e with h | ⟨v, hv, h⟩
  · rw [h]; exact hacc
  · have hunit := normalizeV_unit ops hsqrt v hv
    rcases h with ⟨hn, hd, hpos⟩ | ⟨hn, hd, hpos⟩ <;>
      intro md hmd <;> rw [hd] at hmd <;>
      have hmd2 := Option.some.inj hmd <;> subst hmd2
    · exact ⟨hpos, by rw [hn]; exact hunit⟩
    · refine ⟨hpos, ?_⟩
      rw [hn]
      simp only [vsmul]
      nlinarith [hunit]

/-- The whole edge scan preserves the invariant; since it starts from an
infinite (`none`) minimum, its result always satisfies it. -/
theorem epaScan_ok (ops : Ops K)
    (hsqrt : ∀ x : K, 0 ≤ x → 0 ≤ ops.sqrt x ∧ ops.sqrt x * ops.sqrt x = x)
    (P : List (V2 K)) (minN : V2 K) (minI : ℕ) :
    EpaMinOK (epaScan ops P minN minI) := by
  unfold epaScan
  have : ∀ (es : List (V2 K × V2 K × ℕ)) (acc : EpaMin K), EpaMinOK acc →
      EpaMinOK (es.foldl (epaScanStep ops) acc) := by
    intro es
    induction es with
    | nil => intro acc h; exact h
    | cons e es ih =>
      intro acc h
      exact ih _ (epaScanStep_ok ops hsqrt acc e h)
  apply this
  intro md hmd
  simp at hmd

/-- Whenever the EPA loop returns a collision, its depth is non-negative
and its normal has unit squared length. -/
theorem epaGo_ok (ops : Ops K)
    (hsqrt : ∀ x : K, 0 ≤ x → 0 ≤ ops.sqrt x ∧ ops.sqrt x * ops.sqrt x = x)
    (s1 s2 : Collider K) :
    ∀ (fuel : ℕ) (P : List (V2 K)) (minN : V2 K) (minI iterations : ℕ)
      (c : Collision K),
      epaGo ops s1 s2 fuel P minN minI iterations = some c →
      0 ≤ c.depth ∧ c.normal.x ^ 2 + c.normal.y ^ 2 = 1 := by
  intro fuel
  induction fuel with
  | zero => intro P minN minI it c h; exact absurd h (by simp [epaGo])
  | succ n ih =>
    intro P minN minI it c h
    rw [epaGo] at h
    by_cases hit : MAX_PHYSICS_ITERATIONS < it
    · rw [if_pos hit] at h; exact absurd h (by simp)
    · rw [if_neg hit] at h
      dsimp only at h
      cases hd : (epaScan ops P minN minI).dist with
      | none =>
        simp only [hd] at h
        exact ih _ _ _ _ _ h
      | some md =>
        simp only [hd] at h
        split at h
        · exact ih _ _ _ _ _ h
        · have hc := Option.some.inj h
          have hok := epaScan_ok ops hsqrt P minN minI md hd
          rw [← hc]
          exact ⟨add_nonneg hok.1 (by positivity), hok.2⟩

/-- C5: whenever `get_collision` returns a collision — under the
square-root axioms satisfied by the real square root — the depth is
non-negative (indeed at least the `0.001` bias) and the normal is exactly
unit-length. -/
theorem get_collision_depth_nonneg_normal_unit (ops : Ops K) (fuel : ℕ)
    (s1 s2 : Collider K) (c : Collision K)
    (hsqrt : ∀ x : K, 0 ≤ x → 0 ≤ ops.sqrt x ∧ ops.sqrt x * ops.sqrt x = x)
    (h : getCollision ops fuel s1 s2 = some c) :
    0 ≤ c.depth ∧ c.normal.x ^ 2 + c.normal.y ^ 2 = 1 := by
  unfold getCollision at h
  cases hg : gjk ops fuel s1 s2 with
  | none => rw [hg] at h; exact absurd h (by simp)
  | some simplex =>
    rw [hg, Option.some_bind] at h
    exact epaGo_ok ops hsqrt s1 s2 _ _ _ _ _ _ h

end Physics2

namespace Physics2

variable {K : Type} [LinearOrderedField K]

set_option maxRecDepth 1000000
set_option maxHeartbeats 4000000

/-- A single converged EPA pass: if the iteration guard is clear, the edge
scan produces a finite minimum, and the support along the winning normal is
within tolerance of it, the loop returns that collision immediately. -/
theorem epaGo_converged (ops : Ops K) (s1 s2 : Collider K) (fuel : ℕ)
    (P : List (V2 K)) (minN : V2 K) (minI iterations : ℕ) (m : EpaMin K)
    (md : K) (hit : ¬MAX_PHYSICS_ITERATIONS < iterations)
    (hm : epaScan ops P minN minI = m) (hmd : m.dist = some md)
    (hconv : ¬(1 / 1000 < |vdot m.normal (support s1 s2 m.normal) - md|)) :
    epaGo ops s1 s2 (fuel + 1) P minN minI iterations =
      some ⟨m.normal, md + 1 / 1000⟩ := by
  simp only [epaGo]
  rw [if_neg hit]
  rw [hm, hmd]
  dsimp only
  rw [if_neg hconv]

/-- Exact real evaluation of `get_collision` on the 3-4-5 triangle collider
against the degenerate point collider: every square root taken during the
run is of a perfect square (1 for the initial direction; 25, 9, 16 for the
three polytope edges), so the run evaluates in closed form, converging in a
single EPA pass to the unit normal `(4/5, 3/5)` and depth `1 + 1/1000`. -/
theorem triCollider_getCollision_real :
    getCollision (⟨Real.sqrt, Real.cos, Real.sin⟩ : Ops ℝ) 2 (triCollider ℝ)
        (pointCollider ℝ) =
      some ⟨⟨4 / 5, 3 / 5⟩, 1 + 1 / 1000⟩ := by
  have hs1 : Real.sqrt 1 = 1 := Real.sqrt_one
  have hs9 : Real.sqrt 9 = 3 := by
    rw [show (9 : ℝ) = 3 ^ 2 by norm_num]
    exact Real.sqrt_sq (by norm_num)
  have hs16 : Real.sqrt 16 = 4 := by
    rw [show (16 : ℝ) = 4 ^ 2 by norm_num]
    exact Real.sqrt_sq (by norm_num)
  have hs25 : Real.sqrt 25 = 5 := by
    rw [show (25 : ℝ) = 5 ^ 2 by norm_num]
    exact Real.sqrt_sq (by norm_num)
  have hgjk : gjk (⟨Real.sqrt, Real.cos, Real.sin⟩ : Ops ℝ) 2
      (triCollider ℝ) (pointCollider ℝ) =
      some [⟨-1, 3⟩, ⟨2, -1⟩, ⟨-1, -1⟩] := by
    norm_num [gjk, gjkInitialDirection, normalizeV, gjkGo, handleSimplex,
      support, triCollider, pointCollider, vdot, vsub, vadd, vneg, vsmul,
      vzero, cross3, crossWith, hs1]
  have hscan : epaScan (⟨Real.sqrt, Real.cos, Real.sin⟩ : Ops ℝ)
      [⟨-1, 3⟩, ⟨2, -1⟩, ⟨-1, -1⟩] vzero 0 =
      ⟨some 1, ⟨4 / 5, 3 / 5⟩, 1⟩ := by
    norm_num [epaScan, polyEdges, epaScanStep, List.enum, List.enumFrom,
      List.foldl, List.map, List.zip, List.zipWith, List.drop, List.take,
      List.length, normalizeV, vdot, vsub, vsmul, vzero, hs9, hs16, hs25]
  have hsup : support (triCollider ℝ) (pointCollider ℝ) ⟨4 / 5, 3 / 5⟩ =
      ⟨-1, 3⟩ := by
    norm_num [support, triCollider, pointCollider, vdot, vneg, vsub]
  unfold getCollision
  rw [hgjk, Option.some_bind]
  unfold epa
  rw [show MAX_PHYSICS_ITERATIONS + 2 = (MAX_PHYSICS_ITERATIONS + 1) + 1
    from rfl]
  exact epaGo_converged _ _ _ _ _ _ _ _ _ 1 (by decide) hscan rfl
    (by rw [hsup]; norm_num [vdot])

/-- C5 (witness): the collision the triangle run returns has non-negative
depth and an exactly unit-length normal. -/
theorem get_collision_depth_nonneg_normal_unit_witness :
    0 ≤ ((⟨⟨4 / 5, 3 / 5⟩, 1 + 1 / 1000⟩ : Collision ℝ)).depth ∧
      ((⟨⟨4 / 5, 3 / 5⟩, 1 + 1 / 1000⟩ : Collision ℝ)).normal.x ^ 2 +
        ((⟨⟨4 / 5, 3 / 5⟩, 1 + 1 / 1000⟩ : Collision ℝ)).normal.y ^ 2 = 1 :=
  get_collision_depth_nonneg_normal_unit
    (⟨Real.sqrt, Real.cos, Real.sin⟩ : Ops ℝ) 2 (triCollider ℝ)
    (pointCollider ℝ) ⟨⟨4 / 5, 3 / 5⟩, 1 + 1 / 1000⟩
    (fun x hx => ⟨Real.sqrt_nonneg x, Real.mul_self_sqrt hx⟩)
    triCollider_getCollision_real

end Physics2
